import Mathlib

/-
Verification of the ReWin migration tool core (src/gui/scanner_gui.py and
src/gui/restore_gui.py) against its natural-language specification.

The Python code is shallowly embedded: each relevant method becomes a pure
Lean function over explicit data.  Python dicts (insertion-ordered, key
unique) are modelled as association lists together with the update
operation `dictSet`, which overwrites in place when the key is present and
appends otherwise — exactly the semantics of `d[k] = v`.
-/

namespace ReWin

/-! ## Python dict model

`self.selections[category]` is a Python dict from tree item ids (`sw_i`,
`store_i`) to booleans.  Item ids are modelled by their index `i`.  -/

/-- Lookup of `d[k]`: the value at the unique occurrence of key `k`
(first occurrence if the list is degenerate). -/
def lookupVal : List (Nat × Bool) → Nat → Option Bool
  | [], _ => none
  | p :: rest, k => if p.1 = k then some p.2 else lookupVal rest k

/-- Membership test `k in d`. -/
def hasKey (s : List (Nat × Bool)) (k : Nat) : Bool :=
  (lookupVal s k).isSome

/-- Assignment `d[k] = v`: update in place when present, append otherwise
(Python dicts keep the key's original position on update). -/
def dictSet (s : List (Nat × Bool)) (k : Nat) (v : Bool) : List (Nat × Bool) :=
  if hasKey s k then s.map (fun p => if p.1 = k then (k, v) else p)
  else s ++ [(k, v)]

/-- The `if item not in selections: selections[item] = v0` initialisation
step used by `_select_all` / `_deselect_all`. -/
def ensureKey (s : List (Nat × Bool)) (k : Nat) (v0 : Bool) : List (Nat × Bool) :=
  if hasKey s k then s else s ++ [(k, v0)]

/-- The loop body of `_select_all` / `_deselect_all` folded over the list
of currently attached (visible) tree items: initialise a missing key to
`a`, then set it to `b`. -/
def dictSetAll (sel : List (Nat × Bool)) (vis : List Nat) (a b : Bool) :
    List (Nat × Bool) :=
  vis.foldl (fun s i => dictSet (ensureKey s i a) i b) sel

/-! ## Data model (scanner_gui.py) -/

/-- One record of `package_mappings.json` / `package['software']`.
`WingetId` / `ChocolateyId` are `none` when the key is absent; an empty
string is falsy in Python, which the scripts' truthiness test respects. -/
structure SoftwareEntry where
  SoftwareName : String
  Version : String
  Publisher : String
  InstallMethod : String
  WingetId : Option String
  ChocolateyId : Option String
deriving DecidableEq

/-- One record of the scan's `StoreApps` list; `_export_selection`
projects exactly these four fields into `package['store_apps']`. -/
structure StoreAppEntry where
  Name : String
  Version : String
  Publisher : String
  PackageFamilyName : String
deriving DecidableEq

/-- The license sub-objects of `license_keys.json` (`Windows`, `Office`,
`WiFiProfiles`).  Their inner JSON structure is never inspected by the
export path, which copies the subtrees verbatim, so each subtree is
carried as an opaque serialized payload. -/
structure ScanLicenses where
  windows : String
  office : String
  wifi : String
deriving DecidableEq

/-- The loaded scan (`self.scan_data`) in the configuration the claims
exercise: the `mappings` key present (the preferred branch of
`_populate_ui` / `_export_selection`), plus store apps and licenses.
`licenses = none` models the `license_keys.json` file being absent. -/
structure ScanData where
  mappings : List SoftwareEntry
  storeApps : List StoreAppEntry
  licenses : Option ScanLicenses
deriving DecidableEq

/-- The three license checkboxes (`include_windows_key`,
`include_office_keys`, `include_wifi`). -/
structure LicenseToggles where
  includeWindows : Bool
  includeOffice : Bool
  includeWifi : Bool
deriving DecidableEq

/-- The `package['licenses']` object: three flags, plus the payload keys
that are present only when the corresponding toggle is on and the scan
has license data (`if toggle and 'licenses' in self.scan_data`). -/
structure LicensesOut where
  include_windows : Bool
  include_office : Bool
  include_wifi : Bool
  windows_key : Option String
  office_keys : Option String
  wifi_profiles : Option String
deriving DecidableEq

/-- The `package` dict built by `_export_selection`, i.e. the content of
`migration_package.json`. -/
structure MigrationPackage where
  export_date : String
  drives_primary : String
  drives_secondary : String
  drives_data : String
  software : List SoftwareEntry
  store_apps : List StoreAppEntry
  configs : List (String × Bool)
  licenses : LicensesOut
deriving DecidableEq

/-! ## Selection initialisation (`_populate_ui`) -/

/-- The software loop of `_populate_ui`: for each mapping index `i` (in
order) run `self.selections['software'][iid] = True`.  `prior` is the
selection dict left over from any previously loaded scan
(`self.selections` is created once in `__init__` and never cleared). -/
def populateSoftwareSel (prior : List (Nat × Bool)) (n : Nat) : List (Nat × Bool) :=
  (List.range n).foldl (fun s i => dictSet s i true) prior

/-- The store-apps loop of `_populate_ui`:
`self.selections['store_apps'][iid] = False` for each store app index. -/
def populateStoreSel (prior : List (Nat × Bool)) (m : Nat) : List (Nat × Bool) :=
  (List.range m).foldl (fun s i => dictSet s i false) prior

/-! ## Selection operations and search filter -/

/-- Python substring test `pat in text` on explicit character lists. -/
def containsSub : List Char → List Char → Bool
  | pat, [] => pat.isEmpty
  | pat, c :: rest =>
    if (c :: rest).take pat.length = pat then true else containsSub pat rest

/-- Python `str.lower()` (ASCII case folding, the case the data uses). -/
def pyLower (s : String) : String :=
  String.mk (s.data.map Char.toLower)

/-- The visibility predicate of `_filter_software`: the (lowered) search
term is a substring of the lowered name or the lowered publisher of the
tree row's values. -/
def matchesSearch (entries : List SoftwareEntry) (term : String) (i : Nat) : Bool :=
  match entries[i]? with
  | some e =>
      containsSub (pyLower term).data (pyLower e.SoftwareName).data
        || containsSub (pyLower term).data (pyLower e.Publisher).data
  | none => false

/-- State of the software tab: the loaded mappings, the selection dict,
and the list of currently attached (visible) tree items.  `_filter_software`
detaches/reattaches tree rows; `tree.get_children()` returns only the
attached ones. -/
structure SwState where
  entries : List SoftwareEntry
  sel : List (Nat × Bool)
  visible : List Nat
deriving DecidableEq

/-- The user-driven selection operations of the software tab. -/
inductive SwOp where
  | toggle (i : Nat)
  | selectAll
  | deselectAll
  | filter (term : String)
deriving DecidableEq

/-- One operation.
  * `toggle i` (`_toggle_selection`): flip the value when the id is a
    known key, otherwise do nothing (`if item in self.selections[...]`).
  * `selectAll` (`_select_all`): over the attached tree rows only, with
    the `if not children: return` guard; a missing key is first
    initialised to `False`, then set to `True`.
  * `deselectAll` (`_deselect_all`): symmetric.
  * `filter term` (`_filter_software`): recompute the attached set from
    the search term; the selection dict is untouched. -/
def applyOp (st : SwState) : SwOp → SwState
  | .toggle i =>
      match lookupVal st.sel i with
      | some b => { st with sel := dictSet st.sel i (!b) }
      | none => st
  | .selectAll =>
      if st.visible.isEmpty then st
      else { st with sel := dictSetAll st.sel st.visible false true }
  | .deselectAll =>
      if st.visible.isEmpty then st
      else { st with sel := dictSetAll st.sel st.visible true false }
  | .filter term =>
      { st with visible :=
          (List.range st.entries.length).filter (matchesSearch st.entries term) }

/-- A whole interaction: the operations applied in order. -/
def runOps (st : SwState) (ops : List SwOp) : SwState :=
  ops.foldl applyOp st

/-! ## Export (`_export_selection`) -/

/-- The software export loop: iterate the selection dict in insertion
order; for a selected id parse its index and append
`scan_data['mappings'][idx]` when the index is in range
(`if idx < len(...)`), which `mappings[i]?` models. -/
def exportSoftwareList (sel : List (Nat × Bool)) (mappings : List SoftwareEntry) :
    List SoftwareEntry :=
  sel.foldl
    (fun acc p =>
      if p.2 then
        match mappings[p.1]? with
        | some m => acc ++ [m]
        | none => acc
      else acc)
    []

/-- The store-app export loop: same shape, projecting the four exported
fields of the store app record. -/
def exportStoreList (sel : List (Nat × Bool)) (apps : List StoreAppEntry) :
    List StoreAppEntry :=
  sel.foldl
    (fun acc p =>
      if p.2 then
        match apps[p.1]? with
        | some a => acc ++ [⟨a.Name, a.Version, a.Publisher, a.PackageFamilyName⟩]
        | none => acc
      else acc)
    []

/-- The `package` dict built by `_export_selection`.  `now` is the wall
clock at the moment of export; the code never consults it — the literal
is `'export_date': ''` — so the field below is the empty string. -/
def exportPackage (scan : ScanData) (selSw selStore : List (Nat × Bool))
    (cfg : List (String × Bool)) (lt : LicenseToggles) (now : String) :
    MigrationPackage :=
  let _ := now
  { export_date := ""
    drives_primary := "C:"
    drives_secondary := "D:"
    drives_data := "D:"
    software := exportSoftwareList selSw scan.mappings
    store_apps := exportStoreList selStore scan.storeApps
    configs := cfg
    licenses :=
      { include_windows := lt.includeWindows
        include_office := lt.includeOffice
        include_wifi := lt.includeWifi
        windows_key :=
          match scan.licenses with
          | some l => if lt.includeWindows then some l.windows else none
          | none => none
        office_keys :=
          match scan.licenses with
          | some l => if lt.includeOffice then some l.office else none
          | none => none
        wifi_profiles :=
          match scan.licenses with
          | some l => if lt.includeWifi then some l.wifi else none
          | none => none } }

/-! ## Serialization (`json.dump(package, f, indent=2, default=str)`)

`json.dump` renders the dict deterministically in insertion order.  The
renderer below mirrors the key order of the constructed dict; the fixed
indentation whitespace of `indent=2` is constant formatting and is not
reproduced character-for-character. -/

/-- JSON string escaping (the escapes the exported data can contain). -/
def jsonEscape (s : String) : String :=
  String.mk (s.data.foldr
    (fun c acc =>
      match c with
      | '"' => '\\' :: '"' :: acc
      | '\\' => '\\' :: '\\' :: acc
      | '\n' => '\\' :: 'n' :: acc
      | _ => c :: acc)
    [])

/-- A JSON string literal. -/
def jstr (s : String) : String := "\"" ++ jsonEscape s ++ "\""

/-- A `"key": value` field. -/
def jfield (k v : String) : String := jstr k ++ ": " ++ v

/-- A JSON object from rendered fields. -/
def jobj (fields : List String) : String :=
  "\x7b" ++ String.intercalate ", " fields ++ "\x7d"

/-- A JSON array from rendered elements. -/
def jarr (elems : List String) : String :=
  "[" ++ String.intercalate ", " elems ++ "]"

/-- A JSON boolean. -/
def jbool (b : Bool) : String := if b then "true" else "false"

/-- One exported software record; the optional id keys are present only
when the scan record had them. -/
def serializeSoftwareEntry (s : SoftwareEntry) : String :=
  jobj ([jfield "SoftwareName" (jstr s.SoftwareName),
         jfield "Version" (jstr s.Version),
         jfield "Publisher" (jstr s.Publisher),
         jfield "InstallMethod" (jstr s.InstallMethod)]
    ++ (match s.WingetId with
        | some w => [jfield "WingetId" (jstr w)]
        | none => [])
    ++ (match s.ChocolateyId with
        | some c => [jfield "ChocolateyId" (jstr c)]
        | none => []))

/-- One exported store app record. -/
def serializeStoreApp (a : StoreAppEntry) : String :=
  jobj [jfield "Name" (jstr a.Name),
        jfield "Version" (jstr a.Version),
        jfield "Publisher" (jstr a.Publisher),
        jfield "PackageFamilyName" (jstr a.PackageFamilyName)]

/-- The bytes of `migration_package.json`, keys in the order the dict is
built in `_export_selection`. -/
def serializeMigrationPackage (p : MigrationPackage) : String :=
  jobj [jfield "export_date" (jstr p.export_date),
        jfield "drives"
          (jobj [jfield "primary" (jstr p.drives_primary),
                 jfield "secondary" (jstr p.drives_secondary),
                 jfield "data" (jstr p.drives_data)]),
        jfield "software" (jarr (p.software.map serializeSoftwareEntry)),
        jfield "store_apps" (jarr (p.store_apps.map serializeStoreApp)),
        jfield "configs" (jobj (p.configs.map (fun pr => jfield pr.1 (jbool pr.2)))),
        jfield "licenses"
          (jobj ([jfield "include_windows" (jbool p.licenses.include_windows),
                  jfield "include_office" (jbool p.licenses.include_office),
                  jfield "include_wifi" (jbool p.licenses.include_wifi)]
            ++ (match p.licenses.windows_key with
                | some w => [jfield "windows_key" w]
                | none => [])
            ++ (match p.licenses.office_keys with
                | some o => [jfield "office_keys" o]
                | none => [])
            ++ (match p.licenses.wifi_profiles with
                | some w => [jfield "wifi_profiles" w]
                | none => [])))]

/-! ## Install script generation (`_generate_install_scripts`) -/

/-- Python truthiness of `s.get('WingetId')`: the key is present and the
string is non-empty. -/
def truthy : Option String → Bool
  | none => false
  | some s => !(s == "")

/-- The filter of the Winget comprehension:
`[s['WingetId'] for s in package['software'] if s.get('WingetId')]`. -/
def wingetSelects (s : SoftwareEntry) : Bool := truthy s.WingetId

/-- The filter of the Chocolatey comprehension:
`if s.get('ChocolateyId') and not s.get('WingetId')`. -/
def chocoSelects (s : SoftwareEntry) : Bool :=
  truthy s.ChocolateyId && !truthy s.WingetId

/-- The entries the Winget script is rendered from. -/
def wingetEntries (sw : List SoftwareEntry) : List SoftwareEntry :=
  sw.filter wingetSelects

/-- The entries the Chocolatey script is rendered from. -/
def chocoEntries (sw : List SoftwareEntry) : List SoftwareEntry :=
  sw.filter chocoSelects

/-- `winget_pkgs`: the id extracted from each selected entry (the guard
guarantees the key is present, which `filterMap` models). -/
def wingetPkgs (sw : List SoftwareEntry) : List String :=
  (wingetEntries sw).filterMap (fun s => s.WingetId)

/-- `choco_pkgs`. -/
def chocoPkgs (sw : List SoftwareEntry) : List String :=
  (chocoEntries sw).filterMap (fun s => s.ChocolateyId)

/-- Script generation: `install_winget.ps1` / `install_chocolatey.ps1`
are written iff the respective id list is non-empty (`if winget_pkgs:`).
`none` is the absence of the file; `some pkgs` is the file, whose
installable content is the ordered id list (the surrounding PowerShell
boilerplate is constant text). -/
def generateInstallScripts (sw : List SoftwareEntry) :
    Option (List String) × Option (List String) :=
  ((if wingetPkgs sw ≠ [] then some (wingetPkgs sw) else none),
   (if chocoPkgs sw ≠ [] then some (chocoPkgs sw) else none))

/-! ## Resolver report parsing (`_update_installer_results`) -/

/-- Python ASCII `\s` (`re` on `str` also matches further Unicode spaces;
the report data is ASCII). -/
def pySpace (c : Char) : Bool :=
  c = ' ' || c = '\t' || c = '\n' || c = '\r' || c = '\x0b' || c = '\x0c'

/-- Character class `[^\s\)]` of the markdown-target regex. -/
def urlChar1 (c : Char) : Bool := !(pySpace c || c = ')')

/-- Character class `[^\s\)\],]` of the bare-URL regex. -/
def urlChar2 (c : Char) : Bool := !(pySpace c || c = ')' || c = ']' || c = ',')

/-- Length of the scheme matched at the head of the input by
`https?://` or `winget://` (the `https` alternative is tried before the
bare `http`, as the greedy `s?` does). -/
def schemeLen (l : List Char) : Option Nat :=
  if l.take 8 = "https://".data then some 8
  else if l.take 7 = "http://".data then some 7
  else if l.take 9 = "winget://".data then some 9
  else none

/-- `re.findall` of the bare-URL pattern
`(?:https?|winget)://[^\s\)\],]+`: scan left to right, at each position
try to match a scheme followed by a non-empty maximal run of `urlChar2`;
on success emit the match and continue after it, otherwise advance one
character.  The fuel argument equals the input length; every step
consumes at least one character, so it never runs out. -/
def findBareAux : Nat → List Char → List String
  | 0, _ => []
  | _, [] => []
  | fuel + 1, c :: rest =>
    match schemeLen (c :: rest) with
    | some n =>
      let after := (c :: rest).drop n
      let run := after.takeWhile urlChar2
      if run.isEmpty then findBareAux fuel rest
      else String.mk ((c :: rest).take n ++ run) :: findBareAux fuel (after.drop run.length)
    | none => findBareAux fuel rest

/-- The bare-URL extraction pass (`raw_urls`). -/
def findBare (l : List Char) : List String := findBareAux l.length l

/-- `re.findall` of the markdown pattern
`\]\((https?://[^\s\)]+|winget://[^\s\)]+)\)`: a literal `](`, a scheme,
a non-empty maximal run of `urlChar1`, then a literal `)`; the captured
group is scheme plus run.  On failure the scan advances one character;
on success it continues after the closing parenthesis. -/
def findMdAux : Nat → List Char → List String
  | 0, _ => []
  | _, [] => []
  | fuel + 1, c :: rest =>
    if c = ']' ∧ rest.head? = some '(' then
      let tail := rest.drop 1
      match schemeLen tail with
      | some n =>
        let sch := tail.take n
        let after := tail.drop n
        let run := after.takeWhile urlChar1
        if run.isEmpty then findMdAux fuel rest
        else
          match after.drop run.length with
          | ')' :: tail2 => String.mk (sch ++ run) :: findMdAux fuel tail2
          | _ => findMdAux fuel rest
      | none => findMdAux fuel rest
    else findMdAux fuel rest

/-- The markdown-target extraction pass (`urls`). -/
def findMd (l : List Char) : List String := findMdAux l.length l

/-- `all_found = list(set(urls + raw_urls))`: the distinct URLs of the
union of the two passes.  A Python set iterates in unspecified order;
the model fixes an order, and the verified properties depend only on
membership and distinctness. -/
def extractUrls (content : String) : List String :=
  (findMd content.data ++ findBare content.data).dedup

/-- Python `str.strip()` over the ASCII whitespace class. -/
def pyStrip (s : String) : String :=
  String.mk (((s.data.dropWhile pySpace).reverse.dropWhile pySpace).reverse)

/-- The empty-installer placeholder tokens dropped from the candidates. -/
def placeholderTokens : List String := ["winget://install/", "winget://install"]

/-- `found_urls`: the deduplicated union minus placeholder tokens.  Its
length is the URL count reported in the search-info message. -/
def foundUrls (content : String) : List String :=
  (extractUrls content).filter (fun u => decide (pyStrip u ∉ placeholderTokens))

/-- The classification test: `"google.com/search" in url.lower()`. -/
def isSearchUrl (u : String) : Bool :=
  containsSub "google.com/search".data (pyLower u).data

/-- `selectable_urls`: the downloadable candidates offered in the
download tree — search-fallback URLs are excluded. -/
def selectableUrls (content : String) : List String :=
  (foundUrls content).filter (fun u => !isSearchUrl u)

/-- `len(found_urls)` as surfaced to the user:
`"Found {len(found_urls)} URLs across {item_count} items."`. -/
def reportedUrlCount (content : String) : Nat := (foundUrls content).length

/-! ## Full restore (`_full_restore` and `_restore_configs`)

Each phase launches one external process; the orchestrator streams its
combined output into the log (each line `.strip()`-ed) and waits for it.
The environment below fixes what the file system and the processes do,
so the orchestrator becomes a pure function of it. -/

/-- One external process: the lines it prints and its exit status. -/
structure PhaseProc where
  output : List String
  exitCode : Int
deriving DecidableEq

/-- The environment of one full-restore run: whether each install script
file exists in the package directory, and the behaviour of the two
install processes and the configuration-restore process. -/
structure RestoreEnv where
  wingetScript : Bool
  wingetProc : PhaseProc
  chocoScript : Bool
  chocoProc : PhaseProc
  configProc : PhaseProc
deriving DecidableEq

/-- The `"=" * 50` banner. -/
def eqBanner : String := String.mk (List.replicate 50 '=')

/-- The log lines appended by `_restore_configs`. -/
def restoreConfigsLog (env : RestoreEnv) : List String :=
  (["Starting configuration restore..."] ++ env.configProc.output.map pyStrip)
    ++ ["Configuration restore complete!"]

/-- The log of one `_full_restore` run.  A backend phase runs only when
its script file exists (`if script_path.exists():`); its exit code is
waited for but never examined.  A missing script appends nothing.  The
run then always continues into `_restore_configs`. -/
def fullRestoreLog (env : RestoreEnv) : List String :=
  ([eqBanner, "PHASE 1: Installing Software", eqBanner]
    ++ (if env.wingetScript then
          ["\nInstalling via Winget..."] ++ env.wingetProc.output.map pyStrip
        else [])
    ++ (if env.chocoScript then
          ["\nInstalling via Chocolatey..."] ++ env.chocoProc.output.map pyStrip
        else [])
    ++ ["\n" ++ eqBanner, "PHASE 2: Restoring Configuration", eqBanner ++ "\n"])
    ++ restoreConfigsLog env

/-- Whether some log line contains `needle` as a substring. -/
def logMentions (needle : String) (log : List String) : Bool :=
  log.any (fun l => containsSub needle.data l.data)

/-! ## Concrete instances used by witnesses and counterexamples -/

/-- A mapping record carrying identifiers for both backends. -/
def sBoth : SoftwareEntry :=
  ⟨"Tool A", "1.0", "Vendor", "Winget", some "vendor.toola", some "toola"⟩

/-- A store app record. -/
def appCalc : StoreAppEntry :=
  ⟨"Calculator", "10.0", "Microsoft", "Microsoft.Calculator_8wekyb"⟩

/-- A one-software, one-store-app scan. -/
def scanOne : ScanData :=
  { mappings := [sBoth], storeApps := [appCalc], licenses := none }

/-- All license toggles on. -/
def ltAll : LicenseToggles := ⟨true, true, true⟩

/-- A manual entry whose name does not contain "beta". -/
def eAlpha : SoftwareEntry := ⟨"Alpha Tool", "1.0", "Alpha Corp", "Manual", none, none⟩

/-- A manual entry whose lowered name contains "beta". -/
def eBeta : SoftwareEntry := ⟨"Beta Tool", "2.0", "Beta Corp", "Manual", none, none⟩

/-- The software tab right after `_populate_ui` on a two-entry scan:
both entries selected, both visible. -/
def stFresh : SwState :=
  { entries := [eAlpha, eBeta], sel := populateSoftwareSel [] 2, visible := List.range 2 }

/-- The same tab after typing "beta" into the search box: the selected
entry `eAlpha` is detached (hidden) by the filter. -/
def stFiltered : SwState := applyOp stFresh (SwOp.filter "beta")

/-- A one-entry tab with no active filter. -/
def stOne : SwState := { entries := [eAlpha], sel := [(0, true)], visible := [0] }

/-- An interaction mixing all four operations. -/
def opsMixed : List SwOp := [SwOp.deselectAll, SwOp.filter "zzz", SwOp.toggle 0]

/-- A resolver report carrying the same URL as a markdown target and as
a bare token. -/
def contentBoth : String := "### Tool\n[label](https://x/y.exe) also https://x/y.exe\n"

/-- The URL of `contentBoth`. -/
def urlBoth : String := "https://x/y.exe"

/-- A resolver report whose only URL is a search-engine fallback. -/
def contentSearch : String := "### Tool\n[search](https://www.google.com/search?q=foo)\n"

/-- The URL of `contentSearch`. -/
def urlSearch : String := "https://www.google.com/search?q=foo"

/-- A full-restore environment in which the Chocolatey install script is
missing from the package directory and the Winget phase exits non-zero. -/
def envMissingChoco : RestoreEnv :=
  { wingetScript := true, wingetProc := ⟨[], 1⟩, chocoScript := false,
    chocoProc := ⟨[], 0⟩, configProc := ⟨[], 0⟩ }

/-! # Theorems -/

/-! ## Dictionary lemmas -/

theorem lookupVal_append (s t : List (Nat × Bool)) (k : Nat) :
    lookupVal (s ++ t) k
      = match lookupVal s k with
        | some b => some b
        | none => lookupVal t k := by
  induction s with
  | nil => simp [lookupVal]
  | cons p rest ih =>
      by_cases h : p.1 = k
      · simp [lookupVal, h]
      · simp [lookupVal, h, ih]

theorem mem_of_lookupVal {s : List (Nat × Bool)} {k : Nat} {b : Bool}
    (h : lookupVal s k = some b) : (k, b) ∈ s := by
  induction s with
  | nil => simp [lookupVal] at h
  | cons p rest ih =>
      by_cases hp : p.1 = k
      · obtain ⟨p1, p2⟩ := p
        simp only at hp
        subst hp
        simp [lookupVal] at h
        subst h
        exact List.mem_cons_self _ _
      · simp [lookupVal, hp] at h
        exact List.mem_cons_of_mem _ (ih h)

theorem lookupVal_eq_none_iff {s : List (Nat × Bool)} {k : Nat} :
    lookupVal s k = none ↔ ∀ p ∈ s, p.1 ≠ k := by
  induction s with
  | nil => simp [lookupVal]
  | cons p rest ih =>
      by_cases hp : p.1 = k
      · simp [lookupVal, hp]
      · simp [lookupVal, hp, ih]

theorem mem_dictSet {s : List (Nat × Bool)} {k : Nat} {v : Bool} {p : Nat × Bool}
    (h : p ∈ dictSet s k v) : (p ∈ s ∧ p.1 ≠ k) ∨ p = (k, v) := by
  unfold dictSet at h
  by_cases hk : hasKey s k
  · rw [if_pos hk] at h
    obtain ⟨q, hq, hfq⟩ := List.mem_map.mp h
    by_cases hq1 : q.1 = k
    · right; rw [if_pos hq1] at hfq; exact hfq.symm
    · left; rw [if_neg hq1] at hfq; subst hfq; exact ⟨hq, hq1⟩
  · rw [if_neg hk] at h
    rcases List.mem_append.mp h with hs | hx
    · left
      refine ⟨hs, ?_⟩
      have hnone : lookupVal s k = none := by
        unfold hasKey at hk
        cases hl : lookupVal s k
        · rfl
        · rw [hl] at hk; simp at hk
      exact lookupVal_eq_none_iff.mp hnone p hs
    · right; simpa using hx

theorem mem_dictSet_self (s : List (Nat × Bool)) (k : Nat) (v : Bool) :
    (k, v) ∈ dictSet s k v := by
  unfold dictSet
  by_cases hk : hasKey s k
  · rw [if_pos hk]
    unfold hasKey at hk
    cases hl : lookupVal s k with
    | none => rw [hl] at hk; simp at hk
    | some b =>
        refine List.mem_map.mpr ⟨(k, b), mem_of_lookupVal hl, ?_⟩
        simp
  · rw [if_neg hk]; simp

theorem mem_dictSet_of_mem_ne {s : List (Nat × Bool)} {p : Nat × Bool}
    (hp : p ∈ s) {k : Nat} (hne : p.1 ≠ k) (v : Bool) : p ∈ dictSet s k v := by
  unfold dictSet
  by_cases hk : hasKey s k
  · rw [if_pos hk]
    refine List.mem_map.mpr ⟨p, hp, ?_⟩
    rw [if_neg hne]
  · rw [if_neg hk]; exact List.mem_append_left _ hp

theorem lookupVal_map_update (s : List (Nat × Bool)) (k : Nat) (v : Bool) :
    lookupVal (s.map (fun p => if p.1 = k then (k, v) else p)) k
      = (lookupVal s k).map (fun _ => v) := by
  induction s with
  | nil => simp [lookupVal]
  | cons p rest ih =>
      by_cases hp : p.1 = k
      · simp [lookupVal, hp]
      · simp [lookupVal, hp, ih]

theorem lookupVal_map_update_ne (s : List (Nat × Bool)) {k j : Nat} (h : j ≠ k) (v : Bool) :
    lookupVal (s.map (fun p => if p.1 = k then (k, v) else p)) j = lookupVal s j := by
  induction s with
  | nil => rfl
  | cons p rest ih =>
      by_cases hp : p.1 = k
      · have hkj : ¬ (k = j) := fun hh => h hh.symm
        simp [lookupVal, hp, hkj, ih]
      · simp [lookupVal, hp, ih]

theorem lookupVal_dictSet_self (s : List (Nat × Bool)) (k : Nat) (v : Bool) :
    lookupVal (dictSet s k v) k = some v := by
  unfold dictSet
  by_cases hk : hasKey s k
  · rw [if_pos hk, lookupVal_map_update]
    unfold hasKey at hk
    cases hl : lookupVal s k
    · rw [hl] at hk; simp at hk
    · rfl
  · rw [if_neg hk, lookupVal_append]
    unfold hasKey at hk
    cases hl : lookupVal s k
    · simp [lookupVal]
    · rw [hl] at hk; simp at hk

theorem lookupVal_dictSet_ne (s : List (Nat × Bool)) {k j : Nat} (h : j ≠ k) (v : Bool) :
    lookupVal (dictSet s k v) j = lookupVal s j := by
  unfold dictSet
  by_cases hk : hasKey s k
  · rw [if_pos hk, lookupVal_map_update_ne s h]
  · rw [if_neg hk, lookupVal_append]
    cases hl : lookupVal s j
    · have hkj : ¬ (k = j) := fun hh => h hh.symm
      simp [lookupVal, hkj]
    · rfl

theorem hasKey_dictSet {s : List (Nat × Bool)} {j : Nat} (k : Nat) (v : Bool)
    (h : hasKey s j = true) : hasKey (dictSet s k v) j = true := by
  by_cases hjk : j = k
  · subst hjk; unfold hasKey; rw [lookupVal_dictSet_self]; rfl
  · unfold hasKey at h ⊢; rw [lookupVal_dictSet_ne s hjk v]; exact h

theorem mem_ensureKey {s : List (Nat × Bool)} {k : Nat} {v0 : Bool} {p : Nat × Bool}
    (h : p ∈ ensureKey s k v0) : p ∈ s ∨ p = (k, v0) := by
  unfold ensureKey at h
  by_cases hk : hasKey s k
  · rw [if_pos hk] at h; exact Or.inl h
  · rw [if_neg hk] at h
    rcases List.mem_append.mp h with hs | hx
    · exact Or.inl hs
    · right; simpa using hx

theorem mem_ensureKey_of_mem {s : List (Nat × Bool)} {p : Nat × Bool}
    (hp : p ∈ s) (k : Nat) (v0 : Bool) : p ∈ ensureKey s k v0 := by
  unfold ensureKey
  by_cases hk : hasKey s k
  · rw [if_pos hk]; exact hp
  · rw [if_neg hk]; exact List.mem_append_left _ hp

theorem hasKey_ensureKey {s : List (Nat × Bool)} {j : Nat} (k : Nat) (v0 : Bool)
    (h : hasKey s j = true) : hasKey (ensureKey s k v0) j = true := by
  unfold ensureKey
  by_cases hk : hasKey s k
  · rw [if_pos hk]; exact h
  · rw [if_neg hk]
    unfold hasKey at h ⊢
    rw [lookupVal_append]
    cases hl : lookupVal s j
    · rw [hl] at h; simp at h
    · rfl

theorem dictSetAll_cons (sel : List (Nat × Bool)) (v : Nat) (rest : List Nat) (a b : Bool) :
    dictSetAll sel (v :: rest) a b
      = dictSetAll (dictSet (ensureKey sel v a) v b) rest a b := rfl

theorem hasKey_dictSetAll :
    ∀ (vis : List Nat) (sel : List (Nat × Bool)) (a b : Bool) (j : Nat),
      hasKey sel j = true → hasKey (dictSetAll sel vis a b) j = true := by
  intro vis
  induction vis with
  | nil => intro sel a b j h; exact h
  | cons v rest ih =>
      intro sel a b j h
      rw [dictSetAll_cons]
      exact ih _ a b j (hasKey_dictSet v b (hasKey_ensureKey v a h))

theorem mem_dictSetAll_untouched :
    ∀ (vis : List Nat) (sel : List (Nat × Bool)) (a b : Bool) (k : Nat) (c : Bool),
      k ∉ vis → ((k, c) ∈ dictSetAll sel vis a b ↔ (k, c) ∈ sel) := by
  intro vis
  induction vis with
  | nil => intro sel a b k c _; exact Iff.rfl
  | cons v rest ih =>
      intro sel a b k c hk
      have hkv : k ≠ v := fun h => hk (h ▸ List.mem_cons_self v rest)
      have hkr : k ∉ rest := fun h => hk (List.mem_cons_of_mem _ h)
      rw [dictSetAll_cons, ih _ a b k c hkr]
      constructor
      · intro h
        rcases mem_dictSet h with ⟨hmem, _⟩ | heq
        · rcases mem_ensureKey hmem with hs | hx
          · exact hs
          · exact absurd (congrArg Prod.fst hx) hkv
        · exact absurd (congrArg Prod.fst heq) hkv
      · intro h
        exact mem_dictSet_of_mem_ne (mem_ensureKey_of_mem h v a) hkv b

theorem val_of_mem_dictSetAll :
    ∀ (vis : List Nat) (sel : List (Nat × Bool)) (a b : Bool) (p : Nat × Bool),
      p ∈ dictSetAll sel vis a b → p.1 ∈ vis → p.2 = b := by
  intro vis
  induction vis with
  | nil => intro sel a b p _ hv; simp at hv
  | cons v rest ih =>
      intro sel a b p hp hv
      rw [dictSetAll_cons] at hp
      by_cases hr : p.1 ∈ rest
      · exact ih _ a b p hp hr
      · have hpv : p.1 = v := by
          rcases List.mem_cons.mp hv with h | h
          · exact h
          · exact absurd h hr
        obtain ⟨p1, p2⟩ := p
        simp only at hpv hr
        subst hpv
        have hmem := (mem_dictSetAll_untouched rest _ a b p1 p2 hr).mp hp
        rcases mem_dictSet hmem with ⟨_, hne⟩ | heq
        · exact absurd rfl hne
        · simpa using congrArg Prod.snd heq

theorem key_of_mem_dictSetAll :
    ∀ (vis : List Nat) (sel : List (Nat × Bool)) (a b : Bool) (p : Nat × Bool),
      p ∈ dictSetAll sel vis a b → (∃ c, (p.1, c) ∈ sel) ∨ p.1 ∈ vis := by
  intro vis
  induction vis with
  | nil =>
      intro sel a b p hp
      exact Or.inl ⟨p.2, hp⟩
  | cons v rest ih =>
      intro sel a b p hp
      rw [dictSetAll_cons] at hp
      rcases ih _ a b p hp with ⟨c, hc⟩ | hr
      · rcases mem_dictSet hc with ⟨hmem, _⟩ | heq
        · rcases mem_ensureKey hmem with hs | hx
          · exact Or.inl ⟨c, hs⟩
          · exact Or.inr (List.mem_cons.mpr (Or.inl (congrArg Prod.fst hx)))
        · exact Or.inr (List.mem_cons.mpr (Or.inl (congrArg Prod.fst heq)))
      · exact Or.inr (List.mem_cons_of_mem _ hr)

/-! ## Populate lemmas -/

theorem populateSoftwareSel_succ (prior : List (Nat × Bool)) (n : Nat) :
    populateSoftwareSel prior (n + 1) = dictSet (populateSoftwareSel prior n) n true := by
  unfold populateSoftwareSel
  rw [List.range_succ, List.foldl_append]
  rfl

theorem populateStoreSel_succ (prior : List (Nat × Bool)) (m : Nat) :
    populateStoreSel prior (m + 1) = dictSet (populateStoreSel prior m) m false := by
  unfold populateStoreSel
  rw [List.range_succ, List.foldl_append]
  rfl

theorem lookupVal_populateSoftwareSel (prior : List (Nat × Bool)) :
    ∀ n i, i < n → lookupVal (populateSoftwareSel prior n) i = some true := by
  intro n
  induction n with
  | zero => intro i h; exact absurd h (Nat.not_lt_zero i)
  | succ n ih =>
      intro i h
      rw [populateSoftwareSel_succ]
      by_cases hi : i = n
      · subst hi; exact lookupVal_dictSet_self _ _ _
      · rw [lookupVal_dictSet_ne _ hi true]
        exact ih i (by omega)

theorem lookupVal_populateStoreSel (prior : List (Nat × Bool)) :
    ∀ m j, j < m → lookupVal (populateStoreSel prior m) j = some false := by
  intro m
  induction m with
  | zero => intro j h; exact absurd h (Nat.not_lt_zero j)
  | succ m ih =>
      intro j h
      rw [populateStoreSel_succ]
      by_cases hj : j = m
      · subst hj; exact lookupVal_dictSet_self _ _ _
      · rw [lookupVal_dictSet_ne _ hj false]
        exact ih j (by omega)

theorem val_of_mem_populateStoreSel (prior : List (Nat × Bool)) :
    ∀ m (p : Nat × Bool), p ∈ populateStoreSel prior m → p.1 < m → p.2 = false := by
  intro m
  induction m with
  | zero => intro p _ h; exact absurd h (Nat.not_lt_zero p.1)
  | succ m ih =>
      intro p hp hlt
      rw [populateStoreSel_succ] at hp
      rcases mem_dictSet hp with ⟨hmem, hne⟩ | heq
      · exact ih p hmem (by omega)
      · rw [heq]

/-! ## Export lemmas -/

theorem exportSoftwareList_foldl (mappings : List SoftwareEntry) :
    ∀ (sel : List (Nat × Bool)) (acc : List SoftwareEntry),
      sel.foldl
        (fun acc p =>
          if p.2 then
            match mappings[p.1]? with
            | some m => acc ++ [m]
            | none => acc
          else acc)
        acc
      = acc ++ sel.filterMap (fun p => if p.2 then mappings[p.1]? else none) := by
  intro sel
  induction sel with
  | nil => intro acc; simp
  | cons p rest ih =>
      intro acc
      rw [List.foldl_cons, List.filterMap_cons]
      cases hp : p.2 with
      | false => simp [hp, ih]
      | true =>
          cases hm : mappings[p.1]? with
          | none => simp [hp, hm, ih]
          | some m => simp [hp, hm, ih]

theorem exportSoftwareList_eq_filterMap (sel : List (Nat × Bool))
    (mappings : List SoftwareEntry) :
    exportSoftwareList sel mappings
      = sel.filterMap (fun p => if p.2 then mappings[p.1]? else none) := by
  unfold exportSoftwareList
  rw [exportSoftwareList_foldl]
  simp

theorem exportStoreList_foldl (apps : List StoreAppEntry) :
    ∀ (sel : List (Nat × Bool)) (acc : List StoreAppEntry),
      sel.foldl
        (fun acc p =>
          if p.2 then
            match apps[p.1]? with
            | some a => acc ++ [⟨a.Name, a.Version, a.Publisher, a.PackageFamilyName⟩]
            | none => acc
          else acc)
        acc
      = acc ++ sel.filterMap
          (fun p =>
            if p.2 then
              (apps[p.1]?).map (fun a => ⟨a.Name, a.Version, a.Publisher, a.PackageFamilyName⟩)
            else none) := by
  intro sel
  induction sel with
  | nil => intro acc; simp
  | cons p rest ih =>
      intro acc
      rw [List.foldl_cons, List.filterMap_cons]
      cases hp : p.2 with
      | false => simp [hp, ih]
      | true =>
          cases hm : apps[p.1]? with
          | none => simp [hp, hm, ih]
          | some a => simp [hp, hm, ih]

theorem exportStoreList_eq_filterMap (sel : List (Nat × Bool)) (apps : List StoreAppEntry) :
    exportStoreList sel apps
      = sel.filterMap
          (fun p =>
            if p.2 then
              (apps[p.1]?).map (fun a => ⟨a.Name, a.Version, a.Publisher, a.PackageFamilyName⟩)
            else none) := by
  unfold exportStoreList
  rw [exportStoreList_foldl]
  simp

/-- Truthiness of an optional identifier, unfolded. -/
theorem truthy_iff (o : Option String) : truthy o = true ↔ ∃ x, o = some x ∧ x ≠ "" := by
  cases o with
  | none => simp [truthy]
  | some s => simp [truthy]

/-! ## Claim theorems -/

/-- Claim C1: an exported entry carrying both a Winget and a Chocolatey
identifier is classified under Winget only — its Winget id is rendered
into the Winget script, the entry is never among the entries the
Chocolatey script is rendered from, and every id in the Chocolatey
script originates from an entry with no usable Winget id. -/
theorem c1_winget_priority (sw : List SoftwareEntry) (s : SoftwareEntry)
    (w c : String) (hs : s ∈ sw) (hw : s.WingetId = some w) (hw' : w ≠ "")
    (_hc : s.ChocolateyId = some c) (_hc' : c ≠ "") :
    w ∈ wingetPkgs sw ∧ s ∉ chocoEntries sw ∧
      ∀ x ∈ chocoPkgs sw, ∃ t ∈ sw, t.ChocolateyId = some x ∧ truthy t.WingetId = false := by
  have hwt : truthy s.WingetId = true := (truthy_iff _).mpr ⟨w, hw, hw'⟩
  refine ⟨?_, ?_, ?_⟩
  · refine List.mem_filterMap.mpr ⟨s, ?_, hw⟩
    exact List.mem_filter.mpr ⟨hs, hwt⟩
  · intro hmem
    have hsel := (List.mem_filter.mp hmem).2
    rw [chocoSelects, hwt] at hsel
    simp at hsel
  · intro x hx
    obtain ⟨t, ht, hxid⟩ := List.mem_filterMap.mp hx
    obtain ⟨htsw, hsel⟩ := List.mem_filter.mp ht
    have hsel' : truthy t.ChocolateyId = true ∧ truthy t.WingetId = false := by
      simpa [chocoSelects] using hsel
    exact ⟨t, htsw, hxid, hsel'.2⟩

/-- Witness for C1: the dual-identifier entry `sBoth` lands in the
Winget id list and not among the Chocolatey script's entries. -/
theorem c1_winget_priority_witness :
    "vendor.toola" ∈ wingetPkgs [sBoth] ∧ sBoth ∉ chocoEntries [sBoth] :=
  ⟨(c1_winget_priority [sBoth] sBoth "vendor.toola" "toola"
      (by decide) rfl (by decide) rfl (by decide)).1,
   (c1_winget_priority [sBoth] sBoth "vendor.toola" "toola"
      (by decide) rfl (by decide) rfl (by decide)).2.1⟩

/-- Claim C8: an install script file for a backend exists iff at least
one exported entry resolves to that backend, and a written script is
never empty. -/
theorem c8_script_emission (sw : List SoftwareEntry) :
    ((generateInstallScripts sw).1 ≠ none ↔ ∃ s ∈ sw, wingetSelects s = true)
  ∧ ((generateInstallScripts sw).2 ≠ none ↔ ∃ s ∈ sw, chocoSelects s = true)
  ∧ (∀ l, (generateInstallScripts sw).1 = some l → l ≠ [])
  ∧ (∀ l, (generateInstallScripts sw).2 = some l → l ≠ []) := by
  have hw : wingetPkgs sw ≠ [] ↔ ∃ s ∈ sw, wingetSelects s = true := by
    constructor
    · intro hne
      obtain ⟨x, hx⟩ := List.exists_mem_of_ne_nil _ hne
      obtain ⟨s, hsf, -⟩ := List.mem_filterMap.mp hx
      obtain ⟨hssw, hsel⟩ := List.mem_filter.mp hsf
      exact ⟨s, hssw, hsel⟩
    · rintro ⟨s, hssw, hsel⟩ hnil
      obtain ⟨x, hx, -⟩ := (truthy_iff _).mp hsel
      have : x ∈ wingetPkgs sw :=
        List.mem_filterMap.mpr ⟨s, List.mem_filter.mpr ⟨hssw, hsel⟩, hx⟩
      rw [hnil] at this
      exact absurd this (List.not_mem_nil x)
  have hch : chocoPkgs sw ≠ [] ↔ ∃ s ∈ sw, chocoSelects s = true := by
    constructor
    · intro hne
      obtain ⟨x, hx⟩ := List.exists_mem_of_ne_nil _ hne
      obtain ⟨s, hsf, -⟩ := List.mem_filterMap.mp hx
      obtain ⟨hssw, hsel⟩ := List.mem_filter.mp hsf
      exact ⟨s, hssw, hsel⟩
    · rintro ⟨s, hssw, hsel⟩ hnil
      have h1 : truthy s.ChocolateyId = true := by
        have hsel' : truthy s.ChocolateyId = true ∧ truthy s.WingetId = false := by
          simpa [chocoSelects] using hsel
        exact hsel'.1
      obtain ⟨x, hx, -⟩ := (truthy_iff _).mp h1
      have : x ∈ chocoPkgs sw :=
        List.mem_filterMap.mpr ⟨s, List.mem_filter.mpr ⟨hssw, hsel⟩, hx⟩
      rw [hnil] at this
      exact absurd this (List.not_mem_nil x)
  refine ⟨?_, ?_, ?_, ?_⟩
  · rw [← hw]
    unfold generateInstallScripts
    by_cases h : wingetPkgs sw ≠ [] <;> simp [h]
  · rw [← hch]
    unfold generateInstallScripts
    by_cases h : chocoPkgs sw ≠ [] <;> simp [h]
  · intro l hl
    unfold generateInstallScripts at hl
    by_cases h : wingetPkgs sw ≠ []
    · rw [if_pos h] at hl
      simp only at hl
      rw [Option.some_inj] at hl
      rw [← hl]; exact h
    · rw [if_neg h] at hl
      exact absurd hl (by simp)
  · intro l hl
    unfold generateInstallScripts at hl
    by_cases h : chocoPkgs sw ≠ []
    · rw [if_pos h] at hl
      simp only at hl
      rw [Option.some_inj] at hl
      rw [← hl]; exact h
    · rw [if_neg h] at hl
      exact absurd hl (by simp)

/-- Witness for C8: with one Winget-resolvable entry, the Winget script
file is written. -/
theorem c8_script_emission_witness : (generateInstallScripts [sBoth]).1 ≠ none :=
  (c8_script_emission [sBoth]).1.mpr ⟨sBoth, by decide, by decide⟩

/-- Claim C9 (code bug): the `export_date` field of every exported
package is the empty string, not the date/time of the export — the code
hardcodes `'export_date': ''` and never consults the clock (`now`). -/
theorem c9_export_date_empty (scan : ScanData) (selSw selStore : List (Nat × Bool))
    (cfg : List (String × Bool)) (lt : LicenseToggles) (now : String) :
    (exportPackage scan selSw selStore cfg lt now).export_date = "" := rfl

/-- Claim C3: the serialized package bytes do not depend on the export
time — the only environmental input that can differ between two exports
of the same loaded inventory, selections and toggles — so repeated
exports are byte-identical. -/
theorem c3_byte_identical_export (scan : ScanData) (selSw selStore : List (Nat × Bool))
    (cfg : List (String × Bool)) (lt : LicenseToggles) (t1 t2 : String) :
    serializeMigrationPackage (exportPackage scan selSw selStore cfg lt t1)
      = serializeMigrationPackage (exportPackage scan selSw selStore cfg lt t2) := rfl

/-- Claim C10: after `_populate_ui`, every installed-software entry is
selected and every store-app entry is deselected — regardless of any
selection state left over from a previously loaded scan — so an export
performed with no selection changes contains every scanned mapping and
no store apps. -/
theorem c10_initial_selection (scan : ScanData) (priorSw priorStore : List (Nat × Bool))
    (cfg : List (String × Bool)) (lt : LicenseToggles) (now : String) :
    (∀ i, i < scan.mappings.length →
        lookupVal (populateSoftwareSel priorSw scan.mappings.length) i = some true)
  ∧ (∀ j, j < scan.storeApps.length →
        lookupVal (populateStoreSel priorStore scan.storeApps.length) j = some false)
  ∧ (∀ i (h : i < scan.mappings.length),
        scan.mappings.get ⟨i, h⟩ ∈
          (exportPackage scan (populateSoftwareSel priorSw scan.mappings.length)
            (populateStoreSel priorStore scan.storeApps.length) cfg lt now).software)
  ∧ (exportPackage scan (populateSoftwareSel priorSw scan.mappings.length)
        (populateStoreSel priorStore scan.storeApps.length) cfg lt now).store_apps = [] := by
  refine ⟨fun i h => lookupVal_populateSoftwareSel priorSw _ i h,
          fun j h => lookupVal_populateStoreSel priorStore _ j h, ?_, ?_⟩
  · intro i h
    have hl := lookupVal_populateSoftwareSel priorSw scan.mappings.length i h
    have hmem := mem_of_lookupVal hl
    show scan.mappings.get ⟨i, h⟩ ∈
      exportSoftwareList (populateSoftwareSel priorSw scan.mappings.length) scan.mappings
    rw [exportSoftwareList_eq_filterMap]
    refine List.mem_filterMap.mpr ⟨(i, true), hmem, ?_⟩
    rw [if_pos rfl, List.getElem?_eq_getElem h]
    rfl
  · show exportStoreList (populateStoreSel priorStore scan.storeApps.length) scan.storeApps = []
    rw [exportStoreList_eq_filterMap]
    rw [List.filterMap_eq_nil_iff]
    intro p hp
    cases hv : p.2 with
    | false => simp [hv]
    | true =>
        have hge : ¬ p.1 < scan.storeApps.length := by
          intro hlt
          have hval := val_of_mem_populateStoreSel priorStore _ p hp hlt
          rw [hv] at hval
          simp at hval
        simp [hv, List.getElem?_eq_none (Nat.le_of_not_lt hge)]

/-- Witness for C10: one scanned mapping, one store app, empty prior
state — the mapping is selected and exported, the store list is empty. -/
theorem c10_initial_selection_witness :
    lookupVal (populateSoftwareSel [] scanOne.mappings.length) 0 = some true
  ∧ scanOne.mappings.get ⟨0, by decide⟩ ∈
      (exportPackage scanOne (populateSoftwareSel [] scanOne.mappings.length)
        (populateStoreSel [] scanOne.storeApps.length) [] ltAll "2026-10-12").software
  ∧ (exportPackage scanOne (populateSoftwareSel [] scanOne.mappings.length)
      (populateStoreSel [] scanOne.storeApps.length) [] ltAll "2026-10-12").store_apps = [] :=
  ⟨(c10_initial_selection scanOne [] [] [] ltAll "2026-10-12").1 0 (by decide),
   (c10_initial_selection scanOne [] [] [] ltAll "2026-10-12").2.2.1 0 (by decide),
   (c10_initial_selection scanOne [] [] [] ltAll "2026-10-12").2.2.2⟩

/-- Claim C4: under any sequence of toggle, selectAll, deselectAll and
filter operations, an identifier present in a category's selection dict
stays present (values are only flipped, never removed), and a filter
operation leaves the selection dict — in particular the selection of
every hidden identifier — unchanged. -/
theorem c4_selection_invariant :
    (∀ (st : SwState) (ops : List SwOp) (i : Nat),
        hasKey st.sel i = true → hasKey (runOps st ops).sel i = true)
  ∧ (∀ (st : SwState) (term : String), (applyOp st (SwOp.filter term)).sel = st.sel) := by
  constructor
  · have hstep : ∀ (st : SwState) (op : SwOp) (i : Nat),
        hasKey st.sel i = true → hasKey (applyOp st op).sel i = true := by
      intro st op i h
      cases op with
      | toggle j =>
          cases hl : lookupVal st.sel j with
          | none => simpa [applyOp, hl] using h
          | some b =>
              have hset := hasKey_dictSet (s := st.sel) j (!b) h
              simpa [applyOp, hl] using hset
      | selectAll =>
          by_cases hv : st.visible.isEmpty
          · simpa [applyOp, hv] using h
          · have hall := hasKey_dictSetAll st.visible st.sel false true i h
            simpa [applyOp, hv] using hall
      | deselectAll =>
          by_cases hv : st.visible.isEmpty
          · simpa [applyOp, hv] using h
          · have hall := hasKey_dictSetAll st.visible st.sel true false i h
            simpa [applyOp, hv] using hall
      | filter term => simpa [applyOp] using h
    intro st ops
    induction ops generalizing st with
    | nil => intro i h; exact h
    | cons op rest ih =>
        intro i h
        exact ih (applyOp st op) i (hstep st op i h)
  · intro st term
    rfl

/-- Witness for C4: identifier 0 of a freshly populated scan survives a
deselect-all, a filter that hides everything, and a toggle. -/
theorem c4_selection_invariant_witness :
    hasKey stFresh.sel 0 = true ∧ hasKey (runOps stFresh opsMixed).sel 0 = true :=
  ⟨by decide, c4_selection_invariant.1 stFresh opsMixed 0 (by decide)⟩

/-- Claim C5 counterexample: on a freshly populated two-entry scan with
the search filter "beta" active (hiding the selected entry `eAlpha`),
selectAll followed by deselectAll leaves `eAlpha` selected, and the
export performed immediately afterwards still contains it — the
selected-export set for the category is not empty.  `_select_all` and
`_deselect_all` iterate `tree.get_children()`, which returns only the
attached (visible) rows. -/
theorem c5_counterexample :
    exportSoftwareList (runOps stFiltered [SwOp.selectAll, SwOp.deselectAll]).sel
        stFiltered.entries = [eAlpha]
  ∧ ([eAlpha] : List SoftwareEntry) ≠ [] := by
  constructor
  · rfl
  · decide

/-- Claim C5 amended: provided every identifier in the category's
selection dict is currently visible (no active search filter hiding a
selected row and no stale identifiers), selectAll followed by
deselectAll leaves every identifier deselected, so the export performed
immediately afterwards contains no entries for the category. -/
theorem c5_amended (st : SwState) (hvis : ∀ p ∈ st.sel, p.1 ∈ st.visible) :
    exportSoftwareList (runOps st [SwOp.selectAll, SwOp.deselectAll]).sel st.entries = [] := by
  have hfinal : ∀ p ∈ (runOps st [SwOp.selectAll, SwOp.deselectAll]).sel, p.2 = false := by
    intro p hp
    by_cases hv : st.visible.isEmpty
    · have hsel : (runOps st [SwOp.selectAll, SwOp.deselectAll]).sel = st.sel := by
        simp [runOps, applyOp, hv]
      rw [hsel] at hp
      have hmem := hvis p hp
      rw [List.isEmpty_iff.mp hv] at hmem
      simp at hmem
    · have e1 : applyOp st SwOp.selectAll
          = { st with sel := dictSetAll st.sel st.visible false true } := by
        simp [applyOp, hv]
      have e2 : (applyOp { st with sel := dictSetAll st.sel st.visible false true }
            SwOp.deselectAll).sel
          = dictSetAll (dictSetAll st.sel st.visible false true) st.visible true false := by
        simp [applyOp, hv]
      have hp' : p ∈ dictSetAll (dictSetAll st.sel st.visible false true)
          st.visible true false := by
        have hrw : (runOps st [SwOp.selectAll, SwOp.deselectAll]).sel
            = (applyOp (applyOp st SwOp.selectAll) SwOp.deselectAll).sel := rfl
        rw [hrw, e1, e2] at hp
        exact hp
      have hkey : p.1 ∈ st.visible := by
        rcases key_of_mem_dictSetAll st.visible _ true false p hp' with ⟨c, hc⟩ | hmem
        · rcases key_of_mem_dictSetAll st.visible st.sel false true (p.1, c) hc with
            ⟨c', hc'⟩ | hmem'
          · exact hvis ((p.1, c).1, c') hc'
          · exact hmem'
        · exact hmem
      exact val_of_mem_dictSetAll st.visible _ true false p hp' hkey
  rw [exportSoftwareList_eq_filterMap, List.filterMap_eq_nil_iff]
  intro p hp
  rw [hfinal p hp]
  simp

/-- Witness for C5 amended: a one-entry tab with everything visible —
selectAll then deselectAll yields an empty export. -/
theorem c5_amended_witness :
    (∀ p ∈ stOne.sel, p.1 ∈ stOne.visible)
  ∧ exportSoftwareList (runOps stOne [SwOp.selectAll, SwOp.deselectAll]).sel
      stOne.entries = [] :=
  ⟨by decide, c5_amended stOne (by decide)⟩

/-- Claim C6: a URL extracted both by the markdown-link pass and by the
bare-token pass (and not an empty-installer placeholder) appears in the
parsed candidate list exactly once — the passes are unioned and
deduplicated — and placeholder tokens never reach the candidate list. -/
theorem c6_url_dedup (content : String) (u : String)
    (h1 : u ∈ findMd content.data) (_h2 : u ∈ findBare content.data)
    (h3 : pyStrip u ∉ placeholderTokens) :
    (foundUrls content).count u = 1
  ∧ ∀ v ∈ extractUrls content, pyStrip v ∈ placeholderTokens → v ∉ foundUrls content := by
  constructor
  · have hnodup : (foundUrls content).Nodup :=
      (List.nodup_dedup _).filter _
    have hmem : u ∈ foundUrls content := by
      refine List.mem_filter.mpr ⟨?_, decide_eq_true h3⟩
      exact List.mem_dedup.mpr (List.mem_append.mpr (Or.inl h1))
    exact List.count_eq_one_of_mem hnodup hmem
  · intro v hv hpl hmem
    have hpred := (List.mem_filter.mp hmem).2
    rw [decide_eq_true_eq] at hpred
    exact hpred hpl

/-- Witness for C6: `contentBoth` carries `urlBoth` as a markdown target
and as a bare token; the candidate list holds it exactly once. -/
theorem c6_url_dedup_witness :
    urlBoth ∈ findMd contentBoth.data ∧ urlBoth ∈ findBare contentBoth.data
  ∧ (foundUrls contentBoth).count urlBoth = 1 :=
  ⟨by decide, by decide,
   (c6_url_dedup contentBoth urlBoth (by decide) (by decide) (by decide)).1⟩

/-- Claim C7: a URL extracted from the report that contains the
web-search-engine query pattern is excluded from the downloadable
candidates offered for download, yet still counted in the extraction
total reported to the user. -/
theorem c7_search_fallback (content u : String)
    (hu : u ∈ extractUrls content) (h3 : pyStrip u ∉ placeholderTokens)
    (hg : isSearchUrl u = true) :
    u ∈ foundUrls content ∧ u ∉ selectableUrls content ∧ 0 < reportedUrlCount content := by
  have hmem : u ∈ foundUrls content :=
    List.mem_filter.mpr ⟨hu, decide_eq_true h3⟩
  refine ⟨hmem, ?_, ?_⟩
  · intro hsel
    have hpred := (List.mem_filter.mp hsel).2
    rw [hg] at hpred
    simp at hpred
  · unfold reportedUrlCount
    exact List.length_pos.mpr (List.ne_nil_of_mem hmem)

/-- Witness for C7: the google-search URL of `contentSearch` is counted
but not downloadable. -/
theorem c7_search_fallback_witness :
    urlSearch ∈ foundUrls contentSearch ∧ urlSearch ∉ selectableUrls contentSearch :=
  ⟨(c7_search_fallback contentSearch urlSearch (by decide) (by decide) (by decide)).1,
   (c7_search_fallback contentSearch urlSearch (by decide) (by decide) (by decide)).2.1⟩

/-- Claim C2 counterexample: with the Chocolatey install script absent
from the package directory, the full-restore log contains no line
mentioning a skip — indeed no line mentioning Chocolatey at all — so the
missing script file is not "logged as skipped" (in `_full_restore` the
log call sits inside the `if script_path.exists():` branch and a missing
script appends nothing). -/
theorem c2_counterexample :
    envMissingChoco.chocoScript = false
  ∧ logMentions "kip" (fullRestoreLog envMissingChoco) = false
  ∧ logMentions "hocolatey" (fullRestoreLog envMissingChoco) = false := by
  refine ⟨rfl, ?_, ?_⟩ <;> decide

/-- Claim C2 amended: during a full restore, a backend phase's exit code
is ignored entirely — a non-zero exit is not separately recorded and
does not abort the run — the orchestrator always proceeds to the
configuration-restore phase and the run ends with the completion
message; a missing install script for a backend phase is skipped
silently (the phase contributes no log line, in particular no "skipped"
entry) rather than treated as an error. -/
theorem c2_amended (env : RestoreEnv) (e1 e2 : Int) (p q : PhaseProc) :
    fullRestoreLog { env with wingetProc := { env.wingetProc with exitCode := e1 } }
      = fullRestoreLog { env with wingetProc := { env.wingetProc with exitCode := e2 } }
  ∧ fullRestoreLog { env with chocoProc := { env.chocoProc with exitCode := e1 } }
      = fullRestoreLog { env with chocoProc := { env.chocoProc with exitCode := e2 } }
  ∧ "PHASE 2: Restoring Configuration" ∈ fullRestoreLog env
  ∧ (fullRestoreLog env).getLast? = some "Configuration restore complete!"
  ∧ (env.wingetScript = false →
        fullRestoreLog env = fullRestoreLog { env with wingetProc := p })
  ∧ (env.chocoScript = false →
        fullRestoreLog env = fullRestoreLog { env with chocoProc := q }) := by
  refine ⟨rfl, rfl, ?_, ?_, ?_, ?_⟩
  · simp [fullRestoreLog]
  · unfold fullRestoreLog restoreConfigsLog
    rw [← List.append_assoc]
    exact List.getLast?_concat _
  · intro h
    simp [fullRestoreLog, restoreConfigsLog, h]
  · intro h
    simp [fullRestoreLog, restoreConfigsLog, h]

/-- Witness for C2 amended: in the concrete environment with the
Chocolatey script missing, the log is unaffected by the Chocolatey
process behaviour and the run ends with the completion message. -/
theorem c2_amended_witness :
    envMissingChoco.chocoScript = false
  ∧ fullRestoreLog envMissingChoco
      = fullRestoreLog { envMissingChoco with chocoProc := ⟨["choco out"], 7⟩ }
  ∧ (fullRestoreLog envMissingChoco).getLast? = some "Configuration restore complete!" :=
  ⟨rfl,
   (c2_amended envMissingChoco 0 1 ⟨[], 0⟩ ⟨["choco out"], 7⟩).2.2.2.2.2 rfl,
   (c2_amended envMissingChoco 0 1 ⟨[], 0⟩ ⟨["choco out"], 7⟩).2.2.2.1⟩

end ReWin
